import Mathlib

/-!
Shallow embedding of `gitcontribs.py` (Git contributions visualization tool),
restricted to its core: `calculate_stats` (the aggregator) and
`generate_ascii_graph` (the ASCII heatmap renderer).

Modelling conventions:
* Python strings are `String`; comparisons between strings in the source
  (`sorted(..., key=lambda x: x["date"])`) are Python's lexicographic order on
  code points, embedded as the executable `lexLe` below.
* Python's `str.split()` (split on runs of whitespace, used as
  `commit["date"].split()[0]`) is embedded as `words`; indexing `[0]` on an
  empty result raises `IndexError` in Python, so the key extraction returns
  `Option`.
* `sorted` in Python is a stable sort; a stable sort w.r.t. a total preorder
  is extensionally unique, so it is embedded by `List.insertionSort`, which is
  stable with the same tie orientation.
* Python `dict` (insertion-ordered, `d.get(k, 0)` / `d[k] += 1`) is embedded
  as an insertion-ordered association list with `lookupKey` / `bumpKey`.
* `datetime.date` values are proleptic Gregorian day numbers counted from
  0000-03-01; `civilFromDays` converts a day number to (year, month, day)
  (for negative day numbers, which Python's `datetime` cannot represent
  either, the conversion clamps at 0).  `datetime.datetime.now().date()` is
  modelled as an explicit `today` parameter of the renderer.
* Python's `datetime` raises `OverflowError` outside years 1..9999 — that is,
  outside day numbers `minDate = 306` (0001-01-01) .. `maxDate = 3652364`
  (9999-12-31) — and `timedelta(days=k)` raises for `|k| > 999999999`.
  `dateRangeE` reproduces these error paths as `none`, so
  `generate_ascii_graph` returns `Option String`: `none` exactly where the
  Python function raises instead of returning.
-/

/-- One commit record as parsed from `git log` (see `get_commits`). -/
structure Commit where
  hash : String
  author_name : String
  author_email : String
  date : String
  message : String
deriving DecidableEq

/-- The statistics dictionary produced by `calculate_stats`. -/
structure Stats where
  total_commits : Nat
  commits_by_date : List (String × Nat)
  first_commit : Option Commit
  last_commit : Option Commit
deriving DecidableEq

/-- Whitespace characters recognized by Python's `str.split()` (ASCII part;
the date strings handled by the program contain only ASCII spaces). -/
def isPyWs (c : Char) : Bool :=
  c = ' ' || c = '\t' || c = '\n' || c = '\r' || c = '\x0b' || c = '\x0c'

/-- Python's `str.split()` with no separator: maximal runs of
non-whitespace characters, with leading/trailing/repeated whitespace dropped. -/
def words : List Char → List (List Char)
  | [] => []
  | [c] => if isPyWs c then [] else [[c]]
  | c :: d :: cs =>
    if isPyWs c then words (d :: cs)
    else if isPyWs d then [c] :: words (d :: cs)
    else
      match words (d :: cs) with
      | [] => [[c]]
      | t :: ts => (c :: t) :: ts

/-- `commit["date"].split()[0]`: the first whitespace-separated token of the
date string, or `none` where Python would raise `IndexError`. -/
def dateKeyOf (s : String) : Option String :=
  match words s.data with
  | [] => none
  | t :: _ => some (String.mk t)

/-- The date string has a first token, i.e. `split()[0]` does not raise. -/
def hasTok (s : String) : Prop := words s.data ≠ []

instance (s : String) : Decidable (hasTok s) := by
  unfold hasTok; infer_instance

/-- Total version of `dateKeyOf` (meaningful under `hasTok`). -/
def dateTok (s : String) : String := String.mk ((words s.data).headD [])

/-- The date string truncated at the first whitespace character (the spec's
description of the bucket key). -/
def truncWs (s : String) : String := String.mk (s.data.takeWhile (fun c => !isPyWs c))

/-- Lexicographic order on code points: Python's `<=` on strings, restricted
to the character lists. -/
def lexLe : List Char → List Char → Bool
  | [], _ => true
  | _ :: _, [] => false
  | a :: as, b :: bs =>
    if a.toNat < b.toNat then true
    else if b.toNat < a.toNat then false
    else lexLe as bs

/-- Python's `s <= t` on strings. -/
def strLe (s t : String) : Prop := lexLe s.data t.data = true

instance (s t : String) : Decidable (strLe s t) := by
  unfold strLe; infer_instance

/-- The comparison used by `sorted(commits, key=lambda x: x["date"])`. -/
def commitLe (a b : Commit) : Prop := strLe a.date b.date

instance : DecidableRel commitLe := fun a b => by
  unfold commitLe; infer_instance

/-- Lookup in an insertion-ordered association list (Python `k in d` / `d[k]`). -/
def lookupKey : List (String × Nat) → String → Option Nat
  | [], _ => none
  | (k', v) :: m, k => if k' = k then some v else lookupKey m k

/-- Python `d.get(k, 0)`. -/
def lookupD (m : List (String × Nat)) (k : String) : Nat := (lookupKey m k).getD 0

/-- The bucket update of `calculate_stats`:
`if k in d: d[k] += 1 else: d[k] = 1` on an insertion-ordered dict. -/
def bumpKey : List (String × Nat) → String → List (String × Nat)
  | [], k => [(k, 1)]
  | (k', v) :: m, k => if k' = k then (k', v + 1) :: m else (k', v) :: bumpKey m k

/-- Sum of the values of the bucket map (`sum(d.values())`). -/
def sumValues (m : List (String × Nat)) : Nat := (m.map Prod.snd).sum

/-- The date keys of all commits in order, or `none` if any `split()[0]` raises
(the per-commit loop of `calculate_stats`). -/
def commitKeys : List Commit → Option (List String)
  | [] => some []
  | c :: cs =>
    match dateKeyOf c.date with
    | none => none
    | some k =>
      match commitKeys cs with
      | none => none
      | some ks => some (k :: ks)

/-- `calculate_stats` from `gitcontribs.py`: total count, per-date buckets,
and first/last commit via a stable sort on the date string. -/
def calculate_stats (commits : List Commit) : Option Stats :=
  if commits.isEmpty then
    some { total_commits := 0, commits_by_date := [], first_commit := none, last_commit := none }
  else
    match commitKeys commits with
    | none => none
    | some keys =>
      let sorted_commits := List.insertionSort commitLe commits
      some { total_commits := commits.length
             commits_by_date := keys.foldl bumpKey []
             first_commit := sorted_commits.head?
             last_commit := sorted_commits.getLast? }

/-- Convert a day number (days since 0000-03-01, proleptic Gregorian) to
(year, month, day); the civil-from-days algorithm, as used by
`datetime.date`'s ordinal calendar.  It agrees with `datetime.date` on the
days Python can represent, `minDate = 306` (0001-01-01) up to
`maxDate = 3652364` (9999-12-31); the renderer only reaches it through
`dateRangeE`, whose guards reproduce `OverflowError` outside that range
(outside it this total function clamps below at 0 and continues past 9999
above, values Python raises on rather than represents). -/
def civilFromDays (z : Int) : Nat × Nat × Nat :=
  let z' := z.toNat
  let era := z' / 146097
  let doe := z' % 146097
  let yoe := (doe - doe / 1460 + doe / 36524 - doe / 146096) / 365
  let y := era * 400 + yoe
  let doy := doe - (365 * yoe + yoe / 4 - yoe / 100)
  let mp := (5 * doy + 2) / 153
  let d := doy - (153 * mp + 2) / 5 + 1
  let m := if mp < 10 then mp + 3 else mp - 9
  (if m ≤ 2 then y + 1 else y, m, d)

/-- Zero-pad a number to the given width (the padding of `strftime`). -/
def padNum (w n : Nat) : String := String.mk (List.replicate (w - (Nat.repr n).length) '0') ++ Nat.repr n

/-- `current_date.strftime("%Y-%m-%d")`. -/
def dateStr (z : Int) : String :=
  let c := civilFromDays z
  padNum 4 c.1 ++ "-" ++ padNum 2 c.2.1 ++ "-" ++ padNum 2 c.2.2

/-- The value of the date window of `generate_ascii_graph` when no date
arithmetic overflows: `end_date = today`, `start_date = today - (days-1)`,
and the `while current <= end` loop (`dateRangeE` adds the `OverflowError`
paths). -/
def dateRange (today : Int) (days : Int) : List Int :=
  if days ≤ 0 then [] else (List.range days.toNat).map (fun (i : Nat) => today - (days - 1) + (i : Int))

/-- `datetime.date.min` (0001-01-01) as a day number from 0000-03-01. -/
def minDate : Int := 306

/-- `datetime.date.max` (9999-12-31) as a day number from 0000-03-01. -/
def maxDate : Int := 3652364

/-- The date-window construction of `generate_ascii_graph` with Python's
`OverflowError` paths as `none`, in source order: constructing
`timedelta(days=days-1)` raises beyond 999999999 days; `end_date - timedelta`
raises if the start date falls outside `date.min .. date.max`; and the final
`current_date += timedelta(days=1)` of the loop raises when it steps past
`date.max`, i.e. when the loop ran (`days > 0`) and `today = maxDate`. -/
def dateRangeE (today : Int) (days : Int) : Option (List Int) :=
  if (days - 1).natAbs > 999999999 then none
  else if today - (days - 1) < minDate then none
  else if maxDate < today - (days - 1) then none
  else if 0 < days ∧ today = maxDate then none
  else some (dateRange today days)

/-- Python's `str.split("-")` on the character list: split at every dash,
keeping empty segments. -/
def splitDash : List Char → List (List Char)
  | [] => [[]]
  | c :: cs =>
    if c = '-' then [] :: splitDash cs
    else
      match splitDash cs with
      | [] => [[c]]
      | t :: ts => (c :: t) :: ts

/-- `date_str.split("-")[1]`: the month component of a `YYYY-MM-DD` string.
The default `[]` stands for the `IndexError` branch, unreachable on the
strings produced by `dateStr`. -/
def monthOfStr (s : String) : String := String.mk ((splitDash s.data).getD 1 [])

/-- `datetime.strptime(month, "%m").strftime("%b")` on the two-digit month
strings produced by `dateStr` (other inputs, on which Python would raise,
map to `""`). -/
def monthAbbrev (m : String) : String :=
  if m = "01" then "Jan" else if m = "02" then "Feb" else if m = "03" then "Mar"
  else if m = "04" then "Apr" else if m = "05" then "May" else if m = "06" then "Jun"
  else if m = "07" then "Jul" else if m = "08" then "Aug" else if m = "09" then "Sep"
  else if m = "10" then "Oct" else if m = "11" then "Nov" else if m = "12" then "Dec"
  else ""

/-- The month-scanning loop of `generate_ascii_graph`: `current_month` starts
empty, and on every change a pair `(len(months), month_name)` is appended. -/
def monthsAux (cur : String) (acc : List (Nat × String)) : List String → List (Nat × String)
  | [] => acc
  | d :: ds =>
    let m := monthOfStr d
    if m ≠ cur then monthsAux m (acc ++ [(acc.length, monthAbbrev m)]) ds
    else monthsAux cur acc ds

def monthsOf (dates : List String) : List (Nat × String) := monthsAux "" [] dates

/-- The month header row: 4 leading spaces, then for each recorded month pair
`(pos, name)` the code appends `" " * (pos * 2)` followed by the name. -/
def month_header (dates : List String) : String :=
  (monthsOf dates).foldl (fun h pn => h ++ String.mk (List.replicate (pn.1 * 2) ' ') ++ pn.2) "    "

/-- The glyph chosen for a day's commit count. -/
def glyphOf (count : Nat) : String :=
  if count = 0 then "·" else if count < 5 then "▪" else if count < 10 then "▫" else "█"

/-- The density row: 4 leading spaces, then one glyph and one space per day. -/
def densityRow (cbd : List (String × Nat)) (dates : List String) : String :=
  dates.foldl (fun r d => r ++ glyphOf (lookupD cbd d) ++ " ") "    "

/-- `generate_ascii_graph` from `gitcontribs.py`, with `datetime.now().date()`
passed in as `today`; `none` where the Python function raises `OverflowError`
while building the date window. -/
def generate_ascii_graph (cbd : List (String × Nat)) (today : Int) (days : Int) : Option String :=
  match dateRangeE today days with
  | none => none
  | some range =>
    let dates := range.map dateStr
    some (String.intercalate "\n"
      [month_header dates, densityRow cbd dates,
       "\nLegend:", "· - No commits", "▪ - 1-4 commits", "▫ - 5-9 commits", "█ - 10+ commits"])

/-- The single character of each glyph string (specification-side helper used
to state per-day facts about the density row). -/
def glyphChar (count : Nat) : Char :=
  if count = 0 then '·' else if count < 5 then '▪' else if count < 10 then '▫' else '█'

/-! ### Order lemmas for the lexicographic string comparison -/

theorem lexLe_refl : ∀ l : List Char, lexLe l l = true
  | [] => rfl
  | a :: as => by simp [lexLe, lexLe_refl as]

theorem lexLe_total : ∀ l m : List Char, lexLe l m = true ∨ lexLe m l = true
  | [], _ => Or.inl rfl
  | _ :: _, [] => Or.inr rfl
  | a :: as, b :: bs => by
    rcases lexLe_total as bs with h | h <;>
      simp [lexLe, h] <;> omega

theorem lexLe_trans : ∀ l m n : List Char,
    lexLe l m = true → lexLe m n = true → lexLe l n = true
  | [], _, _, _, _ => rfl
  | _ :: _, [], _, h, _ => by simp [lexLe] at h
  | _ :: _, _ :: _, [], _, h => by simp [lexLe] at h
  | a :: as, b :: bs, c :: cs, h1, h2 => by
    simp only [lexLe] at h1 h2 ⊢
    split_ifs at h1 h2 ⊢ <;> try rfl
    all_goals try omega
    all_goals exact lexLe_trans as bs cs h1 h2

theorem strLe_refl (s : String) : strLe s s := lexLe_refl s.data

instance : IsTotal Commit commitLe := ⟨fun a b => lexLe_total a.date.data b.date.data⟩

instance : IsTrans Commit commitLe :=
  ⟨fun a b c h1 h2 => lexLe_trans a.date.data b.date.data c.date.data h1 h2⟩

theorem commitLe_of_date_eq {a b : Commit} (h : a.date = b.date) : commitLe a b := by
  unfold commitLe strLe
  rw [h]
  exact lexLe_refl b.date.data

/-! ### Lemmas about `words` and the date key -/

theorem words_head_of_not_ws :
    ∀ (cs : List Char) (c : Char), isPyWs c = false →
      (words (c :: cs)).head? = some (c :: cs.takeWhile (fun d => !isPyWs d))
  | [], c, h => by simp [words, h]
  | d :: ds, c, h => by
    by_cases hd : isPyWs d = true
    · simp [words, h, hd, List.takeWhile_cons]
    · rw [Bool.not_eq_true] at hd
      have ih := words_head_of_not_ws ds d hd
      rw [show words (c :: d :: ds)
            = match words (d :: ds) with
              | [] => [[c]]
              | t :: ts => (c :: t) :: ts from by simp [words, h, hd]]
      cases hw : words (d :: ds) with
      | nil => rw [hw] at ih; simp at ih
      | cons t ts =>
        rw [hw] at ih
        simp only [List.head?_cons, Option.some.injEq] at ih
        simp [ih, List.takeWhile_cons, hd]

theorem hasTok_of_head_not_ws (s : String) (h : isPyWs (s.data.headD ' ') = false) :
    hasTok s ∧ dateTok s = truncWs s := by
  unfold hasTok dateTok truncWs
  cases hs : s.data with
  | nil => rw [hs] at h; simp [isPyWs] at h
  | cons c cs =>
    rw [hs] at h
    simp only [List.headD_cons] at h
    have hh := words_head_of_not_ws cs c h
    cases hw : words (c :: cs) with
    | nil => rw [hw] at hh; simp at hh
    | cons t ts =>
      rw [hw] at hh
      simp only [List.head?_cons, Option.some.injEq] at hh
      refine ⟨by simp, ?_⟩
      simp [hh, List.takeWhile_cons, h]

theorem dateKeyOf_eq_some {s : String} (h : hasTok s) : dateKeyOf s = some (dateTok s) := by
  unfold dateKeyOf dateTok hasTok at *
  cases hw : words s.data with
  | nil => exact absurd hw h
  | cons t ts => simp

/-! ### Lemmas about the bucket map -/

theorem lookupKey_bumpKey : ∀ (m : List (String × Nat)) (k q : String),
    lookupKey (bumpKey m k) q = if q = k then some (lookupD m k + 1) else lookupKey m q
  | [], k, q => by
    by_cases h : q = k
    · subst h; simp [bumpKey, lookupKey, lookupD]
    · have h' : ¬ k = q := fun e => h e.symm
      simp [bumpKey, lookupKey, lookupD, h, h']
  | (a, v) :: m, k, q => by
    have ih := lookupKey_bumpKey m k q
    by_cases hak : a = k
    · subst hak
      by_cases hq : q = a
      · subst hq; simp [bumpKey, lookupKey, lookupD]
      · have hq' : ¬ a = q := fun e => hq e.symm
        simp [bumpKey, lookupKey, lookupD, hq, hq']
    · by_cases hq : q = k
      · subst hq
        simp [bumpKey, lookupKey, lookupD, hak, ih]
      · by_cases haq : a = q <;> simp [bumpKey, lookupKey, lookupD, hak, haq, hq, ih]

theorem lookupKey_foldl_bumpKey : ∀ (ks : List String) (m : List (String × Nat)) (q : String),
    lookupKey (ks.foldl bumpKey m) q =
      match lookupKey m q with
      | some v => some (v + ks.count q)
      | none => if q ∈ ks then some (ks.count q) else none
  | [], m, q => by cases h : lookupKey m q <;> simp [h]
  | a :: t, m, q => by
    have ih := lookupKey_foldl_bumpKey t (bumpKey m a) q
    rw [List.foldl_cons, ih, lookupKey_bumpKey]
    by_cases hq : q = a
    · subst hq
      cases h : lookupKey m q with
      | none => simp [h, lookupD, List.count_cons]; omega
      | some v => simp [h, lookupD, List.count_cons]; omega
    · cases h : lookupKey m q with
      | none => simp [h, hq, List.count_cons]
      | some v => simp [h, hq, List.count_cons]

theorem sumValues_bumpKey : ∀ (m : List (String × Nat)) (k : String),
    sumValues (bumpKey m k) = sumValues m + 1
  | [], k => by simp [bumpKey, sumValues]
  | (a, v) :: m, k => by
    have ih := sumValues_bumpKey m k
    by_cases h : a = k
    · subst h
      have hb : bumpKey ((a, v) :: m) a = (a, v + 1) :: m := by simp [bumpKey]
      rw [hb]
      simp only [sumValues, List.map_cons, List.sum_cons]
      omega
    · simp only [bumpKey, if_neg h, sumValues, List.map_cons, List.sum_cons] at *
      omega

theorem sumValues_foldl_bumpKey : ∀ (ks : List String) (m : List (String × Nat)),
    sumValues (ks.foldl bumpKey m) = sumValues m + ks.length
  | [], m => by simp
  | a :: t, m => by
    have ih := sumValues_foldl_bumpKey t (bumpKey m a)
    have hb := sumValues_bumpKey m a
    rw [List.foldl_cons, ih, hb, List.length_cons]
    omega

/-! ### Shape of `calculate_stats` on valid input -/

theorem commitKeys_eq_some : ∀ (C : List Commit), (∀ c ∈ C, hasTok c.date) →
    commitKeys C = some (C.map (fun c => dateTok c.date))
  | [], _ => rfl
  | c :: cs, h => by
    have h1 : hasTok c.date := h c (List.mem_cons_self c cs)
    have h2 := commitKeys_eq_some cs (fun x hx => h x (List.mem_cons_of_mem c hx))
    simp [commitKeys, dateKeyOf_eq_some h1, h2]

theorem calculate_stats_shape (C : List Commit) (hne : C ≠ [])
    (hwf : ∀ c ∈ C, hasTok c.date) :
    calculate_stats C = some
      { total_commits := C.length
        commits_by_date := (C.map (fun c => dateTok c.date)).foldl bumpKey []
        first_commit := (List.insertionSort commitLe C).head?
        last_commit := (List.insertionSort commitLe C).getLast? } := by
  unfold calculate_stats
  rw [commitKeys_eq_some C hwf]
  simp [List.isEmpty_iff, hne]

/-! ### Aggregator claims: empty input, totals, bucket sums, permutation invariance -/

/-- C4: on the empty sequence `calculate_stats` returns without error a result
with zero total commits, an empty bucket map, and absent first/last commit. -/
theorem C4_empty_input : calculate_stats [] =
    some { total_commits := 0, commits_by_date := [], first_commit := none,
           last_commit := none } := rfl

/-- C2: for every commit sequence (duplicates included) whose date strings have
a first token, `calculate_stats` returns a result whose `total_commits` is the
length of the input. -/
theorem C2_total_commits (C : List Commit) (hwf : ∀ c ∈ C, hasTok c.date) :
    ∃ s, calculate_stats C = some s ∧ s.total_commits = C.length := by
  by_cases hC : C = []
  · subst hC
    exact ⟨_, rfl, rfl⟩
  · rw [calculate_stats_shape C hC hwf]
    exact ⟨_, rfl, rfl⟩

/-- C3: the bucket values of `calculate_stats` sum to `total_commits`, and the
bucket of key `k` counts exactly the commits whose date string truncated at the
first whitespace equals `k` (for dates that do not begin with whitespace). -/
theorem C3_bucket_sum (C : List Commit)
    (hwf : ∀ c ∈ C, isPyWs (c.date.data.headD ' ') = false) :
    ∃ s, calculate_stats C = some s ∧
      sumValues s.commits_by_date = s.total_commits ∧
      ∀ k, lookupKey s.commits_by_date k =
        if (C.map (fun c => truncWs c.date)).count k = 0 then none
        else some ((C.map (fun c => truncWs c.date)).count k) := by
  have h1 : ∀ c ∈ C, hasTok c.date := fun c hc => (hasTok_of_head_not_ws _ (hwf c hc)).1
  have h2 : C.map (fun c => dateTok c.date) = C.map (fun c => truncWs c.date) :=
    List.map_congr_left (fun c hc => (hasTok_of_head_not_ws _ (hwf c hc)).2)
  by_cases hC : C = []
  · subst hC
    exact ⟨_, rfl, rfl, fun k => by simp [lookupKey]⟩
  · rw [calculate_stats_shape C hC h1]
    refine ⟨_, rfl, ?_, ?_⟩
    · show sumValues ((C.map fun c => dateTok c.date).foldl bumpKey []) = C.length
      rw [sumValues_foldl_bumpKey]
      simp [sumValues]
    · intro k
      show lookupKey ((C.map fun c => dateTok c.date).foldl bumpKey []) k = _
      rw [h2, lookupKey_foldl_bumpKey]
      simp only [lookupKey]
      by_cases hmem : k ∈ C.map (fun c => truncWs c.date) <;>
        simp [hmem, List.count_eq_zero]

/-- C8: `calculate_stats` yields the same total and the same bucket mapping on
any permutation of its input. -/
theorem C8_perm_invariant (C C' : List Commit) (hp : C.Perm C')
    (hwf : ∀ c ∈ C, hasTok c.date) :
    ∃ s s', calculate_stats C = some s ∧ calculate_stats C' = some s' ∧
      s.total_commits = s'.total_commits ∧
      ∀ k, lookupKey s.commits_by_date k = lookupKey s'.commits_by_date k := by
  have hwf' : ∀ c ∈ C', hasTok c.date := fun c hc => hwf c (hp.mem_iff.mpr hc)
  by_cases hC : C = []
  · subst hC
    have hC' : C' = [] := hp.symm.eq_nil
    subst hC'
    exact ⟨_, _, rfl, rfl, rfl, fun k => rfl⟩
  · have hC' : C' ≠ [] := fun h => hC (by rw [h] at hp; exact hp.eq_nil)
    rw [calculate_stats_shape C hC hwf, calculate_stats_shape C' hC' hwf']
    refine ⟨_, _, rfl, rfl, hp.length_eq, ?_⟩
    intro k
    have hkp : (C.map (fun c => dateTok c.date)).Perm (C'.map (fun c => dateTok c.date)) :=
      hp.map _
    show lookupKey ((C.map fun c => dateTok c.date).foldl bumpKey []) k
       = lookupKey ((C'.map fun c => dateTok c.date).foldl bumpKey []) k
    rw [lookupKey_foldl_bumpKey, lookupKey_foldl_bumpKey]
    simp only [lookupKey]
    rw [hkp.count_eq k]
    by_cases hmem : k ∈ C.map (fun c => dateTok c.date)
    · rw [if_pos hmem, if_pos (hkp.mem_iff.mp hmem)]
    · rw [if_neg hmem, if_neg (fun h => hmem (hkp.mem_iff.mpr h))]

/-! ### First/last commit: extremal dates and stable tie-breaking -/

theorem filter_orderedInsert_pos (a : Commit) : ∀ m : List Commit,
    (List.orderedInsert commitLe a m).filter (fun c => decide (c.date = a.date))
      = a :: m.filter (fun c => decide (c.date = a.date))
  | [] => by simp [List.orderedInsert]
  | b :: m' => by
    by_cases h : commitLe a b
    · simp [List.orderedInsert, h, List.filter_cons]
    · have hb : ¬ b.date = a.date := by
        intro he
        exact h (commitLe_of_date_eq he.symm)
      have ih := filter_orderedInsert_pos a m'
      simp [List.orderedInsert, h, List.filter_cons, hb, ih]

theorem filter_orderedInsert_neg (a : Commit) (d : String) (h : a.date ≠ d) :
    ∀ m : List Commit,
      (List.orderedInsert commitLe a m).filter (fun c => decide (c.date = d))
        = m.filter (fun c => decide (c.date = d))
  | [] => by simp [List.orderedInsert, h]
  | b :: m' => by
    by_cases hab : commitLe a b
    · simp [List.orderedInsert, hab, List.filter_cons, h]
    · have ih := filter_orderedInsert_neg a d h m'
      simp [List.orderedInsert, hab, List.filter_cons, ih]

/-- Stability of the sort used for first/last commit: commits sharing one date
keep their input order. -/
theorem filter_insertionSort_date (d : String) : ∀ C : List Commit,
    (List.insertionSort commitLe C).filter (fun c => decide (c.date = d))
      = C.filter (fun c => decide (c.date = d))
  | [] => rfl
  | a :: C' => by
    have ih := filter_insertionSort_date d C'
    by_cases h : a.date = d
    · subst h
      simp only [List.insertionSort]
      rw [filter_orderedInsert_pos a (List.insertionSort commitLe C'), ih]
      simp [List.filter_cons]
    · simp only [List.insertionSort]
      rw [filter_orderedInsert_neg a d h (List.insertionSort commitLe C'), ih]
      simp [List.filter_cons, h]

/-- C5: on non-empty valid input, `first_commit` is a commit of the input with
lexicographically minimal date string, `last_commit` one with maximal date
string, and the first date is `<=` the last date. -/
theorem C5_first_last_extremal (C : List Commit) (hne : C ≠ [])
    (hwf : ∀ c ∈ C, hasTok c.date) :
    ∃ s f l, calculate_stats C = some s ∧
      s.first_commit = some f ∧ s.last_commit = some l ∧
      f ∈ C ∧ l ∈ C ∧
      (∀ c ∈ C, strLe f.date c.date) ∧ (∀ c ∈ C, strLe c.date l.date) ∧
      strLe f.date l.date := by
  have hperm : (List.insertionSort commitLe C).Perm C := List.perm_insertionSort _ _
  have hsorted : List.Sorted commitLe (List.insertionSort commitLe C) :=
    List.sorted_insertionSort _ _
  have hMne : List.insertionSort commitLe C ≠ [] := by
    apply List.ne_nil_of_length_pos
    rw [hperm.length_eq]
    exact List.length_pos.mpr hne
  set M := List.insertionSort commitLe C with hM
  obtain ⟨f, t, hft⟩ : ∃ f t, M = f :: t := by
    cases hMc : M with
    | nil => exact absurd hMc hMne
    | cons f t => exact ⟨f, t, rfl⟩
  have hl := List.getLast?_eq_getLast M hMne
  set l := M.getLast hMne with hldef
  have hsplit : M.dropLast ++ [l] = M := List.dropLast_append_getLast hMne
  have hmax : ∀ c ∈ C, strLe c.date l.date := by
    intro c hc
    have hcM : c ∈ M := hperm.mem_iff.mpr hc
    rw [← hsplit] at hcM hsorted
    rcases List.mem_append.mp hcM with hc1 | hc2
    · have := (List.pairwise_append.mp hsorted).2.2 c hc1 l (List.mem_singleton_self l)
      exact this
    · rw [List.mem_singleton.mp hc2]
      exact strLe_refl l.date
  have hmin : ∀ c ∈ C, strLe f.date c.date := by
    intro c hc
    have hcM : c ∈ M := hperm.mem_iff.mpr hc
    rw [hft] at hcM hsorted
    rcases List.mem_cons.mp hcM with hc1 | hc2
    · rw [hc1]; exact strLe_refl f.date
    · exact List.rel_of_sorted_cons hsorted c hc2
  have hfC : f ∈ C := hperm.mem_iff.mp (by rw [hft]; exact List.mem_cons_self f t)
  have hlC : l ∈ C := hperm.mem_iff.mp (List.getLast_mem hMne)
  rw [calculate_stats_shape C hne hwf]
  refine ⟨_, f, l, rfl, ?_, ?_, hfC, hlC, hmin, hmax, hmax f hfC⟩
  · show M.head? = some f
    rw [hft]
    rfl
  · exact hl

/-- C9: ties on the extremal date string are resolved by input order — the
first commit is the earliest input record carrying its date string, the last
commit is the latest input record carrying its date string. -/
theorem C9_stable_tie_break (C : List Commit) (f l : Commit)
    (hf : (calculate_stats C).bind Stats.first_commit = some f)
    (hl : (calculate_stats C).bind Stats.last_commit = some l) :
    (C.filter (fun c => decide (c.date = f.date))).head? = some f ∧
    (C.filter (fun c => decide (c.date = l.date))).getLast? = some l := by
  cases hs : calculate_stats C with
  | none => rw [hs] at hf; exact absurd hf (by simp)
  | some s =>
    rw [hs] at hf hl
    simp only [Option.bind] at hf hl
    unfold calculate_stats at hs
    by_cases hE : C.isEmpty
    · rw [if_pos hE] at hs
      have hsb := Option.some.inj hs
      rw [← hsb] at hf
      exact absurd hf (by simp)
    · rw [if_neg hE] at hs
      cases hk : commitKeys C with
      | none => rw [hk] at hs; exact absurd hs (by simp)
      | some keys =>
        rw [hk] at hs
        have hsb := Option.some.inj hs
        rw [← hsb] at hf hl
        simp only at hf hl
        set M := List.insertionSort commitLe C with hM
        constructor
        · obtain ⟨t, hft⟩ : ∃ t, M = f :: t := by
            cases hMc : M with
            | nil => rw [hMc] at hf; exact absurd hf (by simp)
            | cons g t =>
              rw [hMc] at hf
              simp only [List.head?_cons, Option.some.injEq] at hf
              exact ⟨t, by rw [hf]⟩
          rw [← filter_insertionSort_date f.date C, ← hM, hft]
          simp [List.filter_cons]
        · have hMne : M ≠ [] := by
            intro h
            rw [h] at hf
            exact absurd hf (by simp)
          have hgl : M.getLast hMne = l := by
            have := List.getLast?_eq_getLast M hMne
            rw [this] at hl
            exact Option.some.inj hl
          have hsplit : M.dropLast ++ [l] = M := by
            rw [← hgl]
            exact List.dropLast_append_getLast hMne
          rw [← filter_insertionSort_date l.date C, ← hM, ← hsplit, List.filter_append]
          simp [List.filter_cons]

/-! ### Renderer lemmas and claims -/

theorem glyphOf_data (n : Nat) : (glyphOf n).data = [glyphChar n] := by
  unfold glyphOf glyphChar
  split_ifs <;> rfl

theorem glyphChar_cases (n : Nat) :
    glyphChar n = '·' ∨ glyphChar n = '▪' ∨ glyphChar n = '▫' ∨ glyphChar n = '█' := by
  unfold glyphChar
  split_ifs <;> simp

theorem densityRow_foldl (cbd : List (String × Nat)) : ∀ (dates : List String) (acc : String),
    (dates.foldl (fun r d => r ++ glyphOf (lookupD cbd d) ++ " ") acc).data
      = acc.data ++ (dates.map (fun d => [glyphChar (lookupD cbd d), ' '])).flatten
  | [], acc => by simp
  | d :: ds, acc => by
    rw [List.foldl_cons, densityRow_foldl cbd ds (acc ++ glyphOf (lookupD cbd d) ++ " ")]
    simp [String.data_append, glyphOf_data]

theorem densityRow_data (cbd : List (String × Nat)) (dates : List String) :
    (densityRow cbd dates).data
      = [' ', ' ', ' ', ' '] ++ (dates.map (fun d => [glyphChar (lookupD cbd d), ' '])).flatten := by
  unfold densityRow
  rw [densityRow_foldl]

theorem countP_glyph_cells (cbd : List (String × Nat)) : ∀ ds : List String,
    ((ds.map (fun d => [glyphChar (lookupD cbd d), ' '])).flatten).countP
        (fun c => decide (c = '·' ∨ c = '▪' ∨ c = '▫' ∨ c = '█')) = ds.length
  | [] => rfl
  | d :: ds => by
    have ih := countP_glyph_cells cbd ds
    simp only [List.map_cons, List.flatten_cons, List.countP_append, ih, List.length_cons]
    rcases glyphChar_cases (lookupD cbd d) with h | h | h | h <;>
      simp [List.countP_cons, List.countP_nil, h] <;> omega

theorem flatten_cells_getElem (cbd : List (String × Nat)) :
    ∀ (ds : List String) (i : Nat), i < ds.length →
      ((ds.map (fun d => [glyphChar (lookupD cbd d), ' '])).flatten)[2 * i]?
        = some (glyphChar (lookupD cbd (ds.getD i "")))
  | [], i, hi => by simp at hi
  | d :: ds, 0, _ => by simp
  | d :: ds, i + 1, hi => by
    have ih := flatten_cells_getElem cbd ds i (by simpa using hi)
    show (glyphChar (lookupD cbd d) :: ' ' ::
        (ds.map (fun d => [glyphChar (lookupD cbd d), ' '])).flatten)[2 * (i + 1)]?
      = some (glyphChar (lookupD cbd ((d :: ds).getD (i + 1) "")))
    rw [show 2 * (i + 1) = 2 * i + 1 + 1 from by omega]
    rw [List.getElem?_cons_succ, List.getElem?_cons_succ, ih]
    simp

/-- C7 (amended): for `days > 0` whose window start `today-(days-1)` is on or
after 0001-01-01, with `today` a representable date before 9999-12-31, the
window construction does not overflow, the window is `[today-(days-1), today]`,
one entry per calendar day ascending, and the density row is the 4-space
gutter followed by exactly `days` glyph cells, each one glyph followed by one
separator.  (For larger `days` the date subtraction raises `OverflowError`:
see the counterexample theorem.) -/
theorem C7_window_density (cbd : List (String × Nat)) (today days : Int) (h : 0 < days)
    (hstart : minDate ≤ today - (days - 1)) (hend : today < maxDate) :
    dateRangeE today days = some (dateRange today days) ∧
    (dateRange today days).length = days.toNat ∧
    (∀ i : Nat, i < days.toNat →
      (dateRange today days)[i]? = some (today - (days - 1) + i)) ∧
    (dateRange today days).head? = some (today - (days - 1)) ∧
    (dateRange today days).getLast? = some today ∧
    (densityRow cbd ((dateRange today days).map dateStr)).data
      = [' ', ' ', ' ', ' '] ++
        (((dateRange today days).map dateStr).map
          (fun d => [glyphChar (lookupD cbd d), ' '])).flatten ∧
    ((densityRow cbd ((dateRange today days).map dateStr)).data.countP
        (fun c => decide (c = '·' ∨ c = '▪' ∨ c = '▫' ∨ c = '█'))) = days.toNat := by
  have hne : ¬ days ≤ 0 := not_le.mpr h
  have hmin : minDate = 306 := rfl
  have hmax : maxDate = 3652364 := rfl
  have hE : dateRangeE today days = some (dateRange today days) := by
    unfold dateRangeE
    rw [if_neg (by omega), if_neg (by omega), if_neg (by omega), if_neg (by omega)]
  have hR : dateRange today days
      = (List.range days.toNat).map (fun (i : Nat) => today - (days - 1) + (i : Int)) := by
    unfold dateRange
    rw [if_neg hne]
  have hlen : (dateRange today days).length = days.toNat := by simp [hR]
  have hget : ∀ i : Nat, i < days.toNat →
      (dateRange today days)[i]? = some (today - (days - 1) + i) := by
    intro i hi
    rw [hR, List.getElem?_map, List.getElem?_range hi]
    rfl
  have hpos : 0 < days.toNat := by omega
  refine ⟨hE, hlen, hget, ?_, ?_, densityRow_data cbd _, ?_⟩
  · rw [List.head?_eq_getElem?, hget 0 hpos]
    simp
  · rw [List.getLast?_eq_getElem?, hlen, hget (days.toNat - 1) (by omega)]
    simp only [Option.some.injEq]
    omega
  · rw [densityRow_data]
    simp only [List.countP_append, countP_glyph_cells]
    simp [hlen]

/-- C6: the glyph cell rendered for the day at index `i` of the window is
selected from that day's bucket count (absent key meaning 0) by the fixed
thresholds 0, 1-4, 5-9, 10+. -/
theorem C6_glyph_thresholds (cbd : List (String × Nat)) (today days : Int) (i : Nat)
    (hi : i < (dateRange today days).length) :
    (densityRow cbd ((dateRange today days).map dateStr)).data[4 + 2 * i]?
        = some (glyphChar (lookupD cbd (((dateRange today days).map dateStr).getD i ""))) ∧
    (lookupKey cbd (((dateRange today days).map dateStr).getD i "") = none →
      lookupD cbd (((dateRange today days).map dateStr).getD i "") = 0) ∧
    (∀ n : Nat, (n = 0 → glyphChar n = '·') ∧ (1 ≤ n → n ≤ 4 → glyphChar n = '▪') ∧
      (5 ≤ n → n ≤ 9 → glyphChar n = '▫') ∧ (10 ≤ n → glyphChar n = '█')) := by
  refine ⟨?_, ?_, ?_⟩
  · rw [densityRow_data]
    rw [List.getElem?_append_right (by simp)]
    rw [show 4 + 2 * i - ([' ', ' ', ' ', ' '] : List Char).length = 2 * i from by simp]
    exact flatten_cells_getElem cbd _ i (by simpa using hi)
  · intro hnone
    unfold lookupD
    rw [hnone]
    rfl
  · intro n
    refine ⟨fun h0 => ?_, fun h1 h4 => ?_, fun h5 h9 => ?_, fun h10 => ?_⟩ <;>
      unfold glyphChar <;> split_ifs <;> first | rfl | omega

/-- C10 (amended): for `days <= 0`, provided the computed start date
`today - (days-1)` is still representable (at most 9999-12-31, `today` being a
valid date), the date range is empty and the renderer returns without error a
text whose density row has zero glyphs (the 4-space gutter only) and whose
month header has no labels, followed by the legend.  The renderer is not total
on all integers: for more negative `days` the date subtraction (or, further
down, the `timedelta` construction itself) raises `OverflowError` — see the
counterexample theorem. -/
theorem C10_nonpositive_days (cbd : List (String × Nat)) (today days : Int)
    (h : days ≤ 0) (htoday : minDate ≤ today) (hstart : today - (days - 1) ≤ maxDate) :
    generate_ascii_graph cbd today days =
      some "    \n    \n\nLegend:\n· - No commits\n▪ - 1-4 commits\n▫ - 5-9 commits\n█ - 10+ commits" ∧
    dateRangeE today days = some [] := by
  have hmin : minDate = 306 := rfl
  have hmax : maxDate = 3652364 := rfl
  have hR : dateRange today days = [] := by
    unfold dateRange
    rw [if_pos h]
  have hE : dateRangeE today days = some [] := by
    unfold dateRangeE
    rw [if_neg (by omega), if_neg (by omega), if_neg (by omega), if_neg (by omega), hR]
  refine ⟨?_, hE⟩
  unfold generate_ascii_graph
  rw [hE]
  rfl

/-- C1 (failing-input evaluation): on the 3-day window 2024-01-31 .. 2024-02-02
(day number 739223 counted from 0000-03-01), the February label is recorded at
month-list position 1 and lands at character column 9 of the header, not at
column 4 + 2*1 = 6 demanded by the claim for the month-change day index 1. -/
theorem C1_month_header_eval :
    (dateRange 739223 3).map dateStr = ["2024-01-31", "2024-02-01", "2024-02-02"] ∧
    monthsOf ((dateRange 739223 3).map dateStr) = [(0, "Jan"), (1, "Feb")] ∧
    month_header ((dateRange 739223 3).map dateStr) = "    Jan  Feb" ∧
    ((("    Jan  Feb").data.drop 9).take 3 = ['F', 'e', 'b']) ∧
    ¬ ((("    Jan  Feb").data.drop 6).take 3 = ['F', 'e', 'b']) := by
  decide

/-! ### Concrete instances used by the witnesses -/

/-- A concrete commit record (earliest date of the sample). -/
def cX : Commit :=
  { hash := "a1", author_name := "N", author_email := "n@e",
    date := "2024-01-01 09:00:00 +0530", message := "m1" }

/-- A concrete commit record sharing the maximal date with `cZ`. -/
def cY : Commit :=
  { hash := "b2", author_name := "N", author_email := "n@e",
    date := "2024-01-02 07:00:00 +0530", message := "m2" }

/-- A concrete commit record sharing the maximal date with `cY`. -/
def cZ : Commit :=
  { hash := "c3", author_name := "N", author_email := "n@e",
    date := "2024-01-02 07:00:00 +0530", message := "m3" }

theorem C2_witness : ∃ s, calculate_stats [cX, cX] = some s ∧ s.total_commits = 2 :=
  C2_total_commits [cX, cX] (by decide)

theorem C3_witness : ∃ s, calculate_stats [cX, cY] = some s ∧
    sumValues s.commits_by_date = s.total_commits ∧
    ∀ k, lookupKey s.commits_by_date k =
      if (([cX, cY]).map (fun c => truncWs c.date)).count k = 0 then none
      else some ((([cX, cY]).map (fun c => truncWs c.date)).count k) :=
  C3_bucket_sum [cX, cY] (by decide)

theorem C5_witness : ∃ s f l, calculate_stats [cY, cX, cZ] = some s ∧
    s.first_commit = some f ∧ s.last_commit = some l ∧
    f ∈ [cY, cX, cZ] ∧ l ∈ [cY, cX, cZ] ∧
    (∀ c ∈ [cY, cX, cZ], strLe f.date c.date) ∧
    (∀ c ∈ [cY, cX, cZ], strLe c.date l.date) ∧
    strLe f.date l.date :=
  C5_first_last_extremal [cY, cX, cZ] (by decide) (by decide)

theorem C8_witness : ∃ s s', calculate_stats [cX, cY] = some s ∧
    calculate_stats [cY, cX] = some s' ∧
    s.total_commits = s'.total_commits ∧
    ∀ k, lookupKey s.commits_by_date k = lookupKey s'.commits_by_date k :=
  C8_perm_invariant [cX, cY] [cY, cX] (by decide) (by decide)

theorem C9_witness :
    (([cY, cX, cZ]).filter (fun c => decide (c.date = cX.date))).head? = some cX ∧
    (([cY, cX, cZ]).filter (fun c => decide (c.date = cZ.date))).getLast? = some cZ :=
  C9_stable_tie_break [cY, cX, cZ] cX cZ (by decide) (by decide)

theorem C6_witness :
    (densityRow [("2024-02-01", 3)] ((dateRange 739223 3).map dateStr)).data[4 + 2 * 1]?
        = some (glyphChar (lookupD [("2024-02-01", 3)]
            (((dateRange 739223 3).map dateStr).getD 1 ""))) ∧
    glyphChar (lookupD [("2024-02-01", 3)] (((dateRange 739223 3).map dateStr).getD 1 ""))
        = '▪' :=
  ⟨(C6_glyph_thresholds [("2024-02-01", 3)] 739223 3 1 (by decide)).1, by decide⟩

theorem C7_witness :
    dateRangeE 739223 7 = some (dateRange 739223 7) ∧
    (dateRange 739223 7).length = (7 : Int).toNat ∧
    (dateRange 739223 7).head? = some (739223 - (7 - 1)) ∧
    (dateRange 739223 7).getLast? = some 739223 ∧
    ((densityRow [] ((dateRange 739223 7).map dateStr)).data.countP
        (fun c => decide (c = '·' ∨ c = '▪' ∨ c = '▫' ∨ c = '█'))) = (7 : Int).toNat :=
  ⟨(C7_window_density [] 739223 7 (by decide) (by decide) (by decide)).1,
   (C7_window_density [] 739223 7 (by decide) (by decide) (by decide)).2.1,
   (C7_window_density [] 739223 7 (by decide) (by decide) (by decide)).2.2.2.1,
   (C7_window_density [] 739223 7 (by decide) (by decide) (by decide)).2.2.2.2.1,
   (C7_window_density [] 739223 7 (by decide) (by decide) (by decide)).2.2.2.2.2.2⟩

/-- C7 counterexample: at the valid render date 2024-02-02 (day 739223), a
739000-day window starts before year 1 (day 224 < 306 = 0001-01-01), so the
date subtraction overflows and the renderer raises instead of emitting any
glyphs — the unbounded claim fails. -/
theorem C7_counterexample :
    (0 : Int) < 739000 ∧ dateRangeE 739223 739000 = none ∧
    generate_ascii_graph [] 739223 739000 = none := by
  decide

theorem C10_witness :
    generate_ascii_graph [] 739223 (-5) =
      some "    \n    \n\nLegend:\n· - No commits\n▪ - 1-4 commits\n▫ - 5-9 commits\n█ - 10+ commits" ∧
    dateRangeE 739223 (-5) = some [] :=
  C10_nonpositive_days [] 739223 (-5) (by decide) (by decide) (by decide)

/-- C10 counterexample: at the valid render date 2024-02-02 (day 739223),
`days = -3000000` makes the start date `today - (days-1)` = day 3739224 exceed
9999-12-31 (day 3652364), so the date subtraction overflows and the renderer
raises — it is not total on all `days <= 0`. -/
theorem C10_counterexample :
    (-3000000 : Int) ≤ 0 ∧ dateRangeE 739223 (-3000000) = none ∧
    generate_ascii_graph [] 739223 (-3000000) = none := by
  decide
